import Mathlib

/-!
Shallow embedding of the `first-err` crate (src/lib.rs).

The crate provides, for any `Iterator<Item = Result<T, E>>`, the methods
`first_err_or_else`, `first_err_or`, `first_err_or_try`, built on the
adapter `FirstErrIter` (module `result`), and the `Option` counterparts
`first_none_or_else`, `first_none_or`, `first_none_or_try`, built on
`FirstNoneIter` (module `option`).

Modelling choices:
* A Rust iterator is modelled as a state type `σ` together with a step
  function `σ → Option item × σ` (one `next` call: the produced item, if
  any, and the successor state).  The concrete source used by the
  list-level theorems is `listStep`, the iterator of a finite list.
* The closure `f` passed to the drivers can reach the adapter only
  through the adapter's `next` method, so it is modelled by its
  interaction tree `Prog T O`: `Prog.step k` performs one `next` call on
  the adapter and continues with `k` applied to the answer, `Prog.pure o`
  returns `o`.  Quantifying over all `f : Prog T O` quantifies over every
  terminating closure and every possible consumption pattern (zero, some,
  or all items).
* Values of type `T`, `E`, `O` stay fully abstract; no machine arithmetic
  occurs in the library.
-/

/-- Rust's `Result<T, E>`, the item type of the sources the crate works on. -/
inductive Result (T E : Type) where
  | ok (t : T)
  | err (e : E)
  deriving DecidableEq, Repr

/-- Rust's `Result::and_then`, used by `first_err_or_try` (src/lib.rs line 358). -/
def Result.and_then {T E O : Type} : Result T E → (T → Result O E) → Result O E
  | Result.ok t, f => f t
  | Result.err e, _ => Result.err e

/-- Internal state of `FirstErrIter` (src/lib.rs lines 605-614): the enum
`State<I, T, E>` with variants `Active(I)`, `FoundFirstErr(E)`, `Exhausted`.
The iterator `I` is represented by its current state of type `σ`. -/
inductive State (σ T E : Type) where
  | Active (inner : σ)
  | FoundFirstErr (e : E)
  | Exhausted

/-- The `next` method of the iterator of a finite list (the model of
`array.into_iter()` sources): pop the head, or signal exhaustion. -/
def listStep {β : Type} : List β → Option β × List β
  | [] => (none, [])
  | x :: xs => (some x, xs)

/-- `<FirstErrIter as Iterator>::next` (src/lib.rs lines 584-600),
parameterised by the `next` method `stp` of the wrapped source iterator.
While `Active` it pulls one item from the source: `Ok(t)` is passed
through, the first `Err(e)` moves the state to `FoundFirstErr e` (dropping
the source) and yields nothing, source exhaustion moves the state to
`Exhausted`.  In the two non-`Active` states it yields nothing and leaves
the state untouched. -/
def FirstErrIter.next {σ T E : Type} (stp : σ → Option (Result T E) × σ) :
    State σ T E → Option T × State σ T E
  | State.Active s =>
    match stp s with
    | (some (Result.ok t), s') => (some t, State.Active s')
    | (some (Result.err e), _) => (none, State.FoundFirstErr e)
    | (none, _) => (none, State.Exhausted)
  | State.FoundFirstErr e => (none, State.FoundFirstErr e)
  | State.Exhausted => (none, State.Exhausted)

/-- Interaction tree of a closure `f` that may call the handed-in
iterator's `next` finitely many times and then return an output. -/
inductive Prog (T O : Type) where
  | pure (o : O)
  | step (k : Option T → Prog T O)

/-- Run a closure's interaction tree against an iterator with `next`
method `stp`, threading the iterator state; returns the closure's output
and the iterator state the closure leaves behind. -/
def runProg {α T O : Type} (stp : α → Option T × α) : Prog T O → α → O × α
  | Prog.pure o, a => (o, a)
  | Prog.step k, a => runProg stp (k (stp a).1) (stp a).2

/-- The reconciliation drain in `first_err_or_else` (src/lib.rs lines
565-569): `for res in inner { let _ = res?; }` over the list still owned
by an `Active` state; reports the error that `?` would propagate, if any. -/
def drainErr {T E : Type} : List (Result T E) → Option E
  | [] => none
  | Result.ok _ :: rest => drainErr rest
  | Result.err e :: _ => some e

/-- `FirstErrIter::first_err_or_else` (src/lib.rs lines 552-574) over a
finite list source: build the adapter in state `Active source`, run the
closure on it, then reconcile from the adapter's final state:
an `Active` remainder is drained looking for a first error, `Exhausted`
returns `Ok output`, `FoundFirstErr e` returns `Err e` unconditionally. -/
def firstErrOrElse {T E O : Type} (f : Prog T O) (src : List (Result T E)) : Result O E :=
  match (runProg (FirstErrIter.next listStep) f (State.Active src)).2 with
  | State.Active inner =>
    match drainErr inner with
    | some e => Result.err e
    | none => Result.ok (runProg (FirstErrIter.next listStep) f (State.Active src)).1
  | State.Exhausted => Result.ok (runProg (FirstErrIter.next listStep) f (State.Active src)).1
  | State.FoundFirstErr e => Result.err e

/-- `FirstErr::first_err_or` (src/lib.rs lines 384-390):
`first_err_or_else(|_| value)`; the ignoring closure is `Prog.pure value`. -/
def firstErrOr {T E O : Type} (value : O) (src : List (Result T E)) : Result O E :=
  firstErrOrElse (Prog.pure value) src

/-- `FirstErr::first_err_or_try` (src/lib.rs lines 352-359):
`self.first_err_or_else(f).and_then(|res| res)`. -/
def firstErrOrTry {T E O : Type} (f : Prog T (Result O E)) (src : List (Result T E)) :
    Result O E :=
  (firstErrOrElse f src).and_then (fun res => res)

/-- Specification-side reading of "the first `Err` in source order". -/
def firstErr {T E : Type} : List (Result T E) → Option E
  | [] => none
  | Result.ok _ :: rest => firstErr rest
  | Result.err e :: _ => some e

lemma drainErr_eq_firstErr {T E : Type} : ∀ l : List (Result T E), drainErr l = firstErr l := by
  intro l
  induction l with
  | nil => rfl
  | cons x rest ih => cases x <;> simp [drainErr, firstErr, ih]

/-- Running any closure from a state that a step function leaves unchanged
while producing nothing cannot move that state. -/
lemma runProg_absorb {α T O : Type} (stp : α → Option T × α) (a : α)
    (h : stp a = (none, a)) : ∀ f : Prog T O, (runProg stp f a).2 = a := by
  intro f
  induction f with
  | pure o => rfl
  | step k ih => simpa [runProg, h] using ih none

/-- Two absorbing, item-less iterator states are indistinguishable to a
closure: the closure's output is the same over both. -/
lemma runProg_dead {α β T O : Type} (stpA : α → Option T × α) (stpB : β → Option T × β)
    (a : α) (b : β) (ha : stpA a = (none, a)) (hb : stpB b = (none, b)) :
    ∀ f : Prog T O, (runProg stpA f a).1 = (runProg stpB f b).1 := by
  intro f
  induction f with
  | pure o => rfl
  | step k ih => simpa [runProg, ha, hb] using ih none

/-- Core contract of `first_err_or_else` over every closure and source. -/
lemma orElse_eq {T E O : Type} (f : Prog T O) (src : List (Result T E)) :
    firstErrOrElse f src =
      match firstErr src with
      | some e => Result.err e
      | none => Result.ok ((runProg (FirstErrIter.next listStep) f (State.Active src)).1) := by
  induction f generalizing src with
  | pure o =>
    have h : firstErrOrElse (Prog.pure o) src =
        match drainErr src with
        | some e => Result.err e
        | none => Result.ok o := by
      simp [firstErrOrElse, runProg]
    rw [h, drainErr_eq_firstErr]
    cases hf : firstErr src <;> simp [runProg]
  | step k ih =>
    cases src with
    | nil =>
      have habs : FirstErrIter.next (listStep (β := Result T E)) State.Exhausted =
          (none, State.Exhausted) := rfl
      have h2 := runProg_absorb (O := O) (FirstErrIter.next listStep)
        State.Exhausted habs (k none)
      simp only [firstErrOrElse, runProg, FirstErrIter.next, listStep, firstErr]
      rw [h2]
    | cons x rest =>
      cases x with
      | ok t =>
        have hL : firstErrOrElse (Prog.step k) (Result.ok t :: rest) =
            firstErrOrElse (k (some t)) rest := by
          simp [firstErrOrElse, runProg, FirstErrIter.next, listStep]
        rw [hL, ih (some t) rest]
        have h1 : firstErr (Result.ok t :: rest) = firstErr rest := by simp [firstErr]
        have h2 : (runProg (FirstErrIter.next listStep) (Prog.step k)
              (State.Active (Result.ok t :: rest))).1 =
            (runProg (FirstErrIter.next listStep) (k (some t)) (State.Active rest)).1 := by
          simp [runProg, FirstErrIter.next, listStep]
        rw [h1, h2]
      | err e =>
        have habs : FirstErrIter.next (listStep (β := Result T E)) (State.FoundFirstErr e) =
            (none, State.FoundFirstErr e) := rfl
        have h2 := runProg_absorb (O := O) (FirstErrIter.next listStep)
          (State.FoundFirstErr e) habs (k none)
        simp only [firstErrOrElse, runProg, FirstErrIter.next, listStep, firstErr]
        rw [h2]

/-- C1: for every finite source sequence of `Result` items and every
closure `f`, `first_err_or_else` returns `Err e` iff the full source
contains at least one `Err`, `e` being the first `Err` in source order;
when the source contains no `Err` it returns `Ok` wrapping the closure's
output — regardless of how many items the closure pulls. -/
theorem c1_result_contract {T E O : Type} (f : Prog T O) (src : List (Result T E)) :
    firstErrOrElse f src =
      match firstErr src with
      | some e => Result.err e
      | none => Result.ok ((runProg (FirstErrIter.next listStep) f (State.Active src)).1) :=
  orElse_eq f src

/-- C7: the try-variant is the or-else variant followed by flattening;
an upstream error always wins over an error the closure returns. -/
theorem c7_try_flattening {T E O : Type} (f : Prog T (Result O E)) (src : List (Result T E)) :
    firstErrOrTry f src = Result.and_then (firstErrOrElse f src) (fun res => res)
    ∧ firstErrOrTry f src =
      match firstErr src with
      | some e => Result.err e
      | none => (runProg (FirstErrIter.next listStep) f (State.Active src)).1 := by
  refine ⟨rfl, ?_⟩
  rw [firstErrOrTry, orElse_eq]
  cases firstErr src <;> simp [Result.and_then]

/-- Iterate the adapter's `next` method `n` times, tracking only the state. -/
def iterN {σ T E : Type} (stp : σ → Option (Result T E) × σ) :
    Nat → State σ T E → State σ T E
  | 0, st => st
  | n + 1, st => iterN stp n (FirstErrIter.next stp st).2

lemma inert_next {σ T E : Type} (stp : σ → Option (Result T E) × σ) (st : State σ T E)
    (h : ∀ s, st ≠ State.Active s) : FirstErrIter.next stp st = (none, st) := by
  cases st with
  | Active s => exact absurd rfl (h s)
  | FoundFirstErr e => rfl
  | Exhausted => rfl

lemma inert_iterN {σ T E : Type} (stp : σ → Option (Result T E) × σ) (st : State σ T E)
    (h : ∀ s, st ≠ State.Active s) : ∀ n, iterN stp n st = st := by
  intro n
  induction n with
  | zero => rfl
  | succ n ih => simp [iterN, inert_next stp st h, ih]

lemma iterN_first {T E : Type} :
    ∀ (n : Nat) (src : List (Result T E)) (e : E),
      iterN listStep n (State.Active src) = State.FoundFirstErr e → firstErr src = some e := by
  intro n
  induction n with
  | zero => intro src e h; exact absurd h (by simp [iterN])
  | succ n ih =>
    intro src e h
    cases src with
    | nil =>
      rw [show iterN listStep (n + 1) (State.Active ([] : List (Result T E))) =
          iterN listStep n State.Exhausted from rfl] at h
      rw [inert_iterN listStep State.Exhausted (fun s hs => State.noConfusion hs) n] at h
      exact absurd h (by simp)
    | cons x rest =>
      cases x with
      | ok t =>
        rw [show iterN listStep (n + 1) (State.Active (Result.ok t :: rest)) =
            iterN listStep n (State.Active rest) from rfl] at h
        simpa [firstErr] using ih rest e h
      | err e' =>
        rw [show iterN listStep (n + 1) (State.Active (Result.err e' :: rest)) =
            iterN listStep n (State.FoundFirstErr e') from rfl] at h
        rw [inert_iterN listStep (State.FoundFirstErr e') (fun s hs => State.noConfusion hs) n]
          at h
        cases h
        simp [firstErr]

/-- C2: the adapter state is a three-variant tagged union; transitions are
one-directional (the two non-`Active` states absorb every further `next`
call), and the only retained failure value is the first `Err` in source
order. -/
theorem c2_state_machine :
    (∀ (σ T E : Type) (stp : σ → Option (Result T E) × σ) (st : State σ T E),
      (∀ s, st ≠ State.Active s) → FirstErrIter.next stp st = (none, st))
    ∧ (∀ (σ T E : Type) (st : State σ T E),
      (∃ s, st = State.Active s) ∨ (∃ e, st = State.FoundFirstErr e) ∨ st = State.Exhausted)
    ∧ (∀ (T E : Type) (src : List (Result T E)) (n : Nat) (e : E),
      iterN listStep n (State.Active src) = State.FoundFirstErr e → firstErr src = some e) := by
  refine ⟨fun σ T E stp st h => inert_next stp st h, fun σ T E st => ?_,
    fun T E src n e h => iterN_first n src e h⟩
  cases st with
  | Active s => exact Or.inl ⟨s, rfl⟩
  | FoundFirstErr e => exact Or.inr (Or.inl ⟨e, rfl⟩)
  | Exhausted => exact Or.inr (Or.inr rfl)

theorem c2_state_machine_witness :
    FirstErrIter.next (listStep (β := Result Nat Nat)) (State.FoundFirstErr 7) =
      (none, State.FoundFirstErr 7)
    ∧ iterN (listStep (β := Result Nat Nat)) 2 (State.Active [Result.ok 1, Result.err 2]) =
      State.FoundFirstErr 2
    ∧ firstErr [Result.ok (1 : Nat), Result.err (2 : Nat)] = some 2 :=
  ⟨c2_state_machine.1 (List (Result Nat Nat)) Nat Nat listStep (State.FoundFirstErr 7)
      (fun _ hs => State.noConfusion hs),
    rfl,
    c2_state_machine.2.2 Nat Nat [Result.ok 1, Result.err 2] 2 2 rfl⟩

/-- C5: once the adapter yields its first "no more items" answer, every
later call — with any step function whatsoever, fused or not — yields
"no more items" again and leaves the state untouched. -/
theorem c5_fused {σ T E : Type} (stp : σ → Option (Result T E) × σ) (st : State σ T E)
    (h : (FirstErrIter.next stp st).1 = none) :
    ∀ (stp' : σ → Option (Result T E) × σ) (n : Nat),
      FirstErrIter.next stp' (FirstErrIter.next stp st).2 = (none, (FirstErrIter.next stp st).2)
      ∧ iterN stp' (n + 1) (FirstErrIter.next stp st).2 = (FirstErrIter.next stp st).2 := by
  intro stp' n
  have hin : ∀ s, (FirstErrIter.next stp st).2 ≠ State.Active s := by
    intro s hs
    cases st with
    | Active s0 =>
      rcases hstep : stp s0 with ⟨item, s1⟩
      rcases item with _ | t
      · rw [show FirstErrIter.next stp (State.Active s0) = (none, State.Exhausted) by
          simp [FirstErrIter.next, hstep]] at hs
        exact State.noConfusion hs
      · cases t with
        | ok t0 =>
          rw [show FirstErrIter.next stp (State.Active s0) = (some t0, State.Active s1) by
            simp [FirstErrIter.next, hstep]] at h
          exact Option.noConfusion h
        | err e0 =>
          rw [show FirstErrIter.next stp (State.Active s0) = (none, State.FoundFirstErr e0) by
            simp [FirstErrIter.next, hstep]] at hs
          exact State.noConfusion hs
    | FoundFirstErr e => exact State.noConfusion hs
    | Exhausted => exact State.noConfusion hs
  exact ⟨inert_next stp' _ hin, inert_iterN stp' _ hin (n + 1)⟩

theorem c5_fused_witness :
    FirstErrIter.next (fun l => (some (Result.ok (9 : Nat)), l))
        (FirstErrIter.next listStep (State.Active [Result.err (5 : Nat)])).2 =
      (none, (FirstErrIter.next listStep (State.Active [Result.err (5 : Nat)])).2)
    ∧ iterN (fun l => (some (Result.ok (9 : Nat)), l)) 4
        (FirstErrIter.next listStep (State.Active [Result.err (5 : Nat)])).2 =
      (FirstErrIter.next listStep (State.Active [Result.err (5 : Nat)])).2 :=
  c5_fused listStep (State.Active [Result.err (5 : Nat)]) rfl
    (fun l => (some (Result.ok (9 : Nat)), l)) 3

/-- Collect the values the adapter yields through successive `next` calls,
stopping at the first "no more items" answer; `fuel` bounds the number of
calls performed. -/
def collectOut {σ T E : Type} (stp : σ → Option (Result T E) × σ) :
    Nat → State σ T E → List T
  | 0, _ => []
  | n + 1, st =>
    match FirstErrIter.next stp st with
    | (some t, st') => t :: collectOut stp n st'
    | (none, _) => []

/-- Specification-side reading of "the prefix of the source's Ok values up
to (not including) the first Err". -/
def okSeq {T E : Type} : List (Result T E) → List T
  | [] => []
  | Result.ok t :: rest => t :: okSeq rest
  | Result.err _ :: _ => []

lemma collect_eq {T E : Type} :
    ∀ (src : List (Result T E)) (fuel : Nat), src.length ≤ fuel →
      collectOut listStep fuel (State.Active src) = okSeq src := by
  intro src
  induction src with
  | nil =>
    intro fuel _
    cases fuel with
    | zero => rfl
    | succ n => simp [collectOut, FirstErrIter.next, listStep, okSeq]
  | cons x rest ih =>
    intro fuel hf
    cases fuel with
    | zero => simp at hf
    | succ n =>
      cases x with
      | ok t =>
        have : rest.length ≤ n := by simpa [Nat.succ_le_succ_iff] using hf
        simp [collectOut, FirstErrIter.next, listStep, okSeq, ih n this]
      | err e => simp [collectOut, FirstErrIter.next, listStep, okSeq]

lemma okSeq_length {T E : Type} : ∀ src : List (Result T E), (okSeq src).length ≤ src.length := by
  intro src
  induction src with
  | nil => simp [okSeq]
  | cons x rest ih =>
    cases x with
    | ok t => simpa [okSeq] using ih
    | err e => simp [okSeq]

/-- C3: the adapter's yielded sequence is exactly the prefix of the
source's Ok values before the first Err, and is no longer than the source. -/
theorem c3_produced_sequence {T E : Type} (src : List (Result T E)) (fuel : Nat)
    (h : src.length ≤ fuel) :
    collectOut listStep fuel (State.Active src) = okSeq src
    ∧ (okSeq src).length ≤ src.length :=
  ⟨collect_eq src fuel h, okSeq_length src⟩

theorem c3_produced_sequence_witness :
    ([Result.ok 1, Result.err 2, Result.ok 3] : List (Result Nat Nat)).length ≤ 5
    ∧ (collectOut listStep 5
          (State.Active ([Result.ok 1, Result.err 2, Result.ok 3] : List (Result Nat Nat))) =
        okSeq [Result.ok 1, Result.err 2, Result.ok 3]
      ∧ (okSeq ([Result.ok 1, Result.err 2, Result.ok 3] : List (Result Nat Nat))).length ≤
        ([Result.ok 1, Result.err 2, Result.ok 3] : List (Result Nat Nat)).length) :=
  ⟨by decide, c3_produced_sequence [Result.ok 1, Result.err 2, Result.ok 3] 5 (by decide)⟩

lemma okSeq_all_ok {T E : Type} :
    ∀ src : List (Result T E), firstErr src = none →
      (okSeq src).map (Result.ok : T → Result T E) = src := by
  intro src
  induction src with
  | nil => intro _; rfl
  | cons x rest ih =>
    intro h
    cases x with
    | ok t => simp only [okSeq, List.map_cons, List.cons.injEq, eq_self_iff_true, true_and]
              exact ih (by simpa [firstErr] using h)
    | err e => simp [firstErr] at h

/-- C6: on an all-Ok source the driver returns Ok wrapping the closure's
output, and the adapter yields the full unwrapped value sequence in order
(re-wrapping the yielded sequence recovers the source). -/
theorem c6_all_ok {T E O : Type} (f : Prog T O) (src : List (Result T E))
    (h : firstErr src = none) :
    firstErrOrElse f src =
      Result.ok ((runProg (FirstErrIter.next listStep) f (State.Active src)).1)
    ∧ (collectOut listStep src.length (State.Active src)).map (Result.ok : T → Result T E) =
      src := by
  constructor
  · rw [orElse_eq, h]
  · rw [collect_eq src src.length (Nat.le_refl _), okSeq_all_ok src h]

theorem c6_all_ok_witness :
    firstErr ([Result.ok 1, Result.ok 2] : List (Result Nat Nat)) = none
    ∧ (firstErrOrElse (Prog.pure (0 : Nat)) ([Result.ok 1, Result.ok 2] : List (Result Nat Nat)) =
        Result.ok ((runProg (FirstErrIter.next listStep) (Prog.pure (0 : Nat))
          (State.Active ([Result.ok 1, Result.ok 2] : List (Result Nat Nat)))).1)
      ∧ (collectOut listStep ([Result.ok 1, Result.ok 2] : List (Result Nat Nat)).length
            (State.Active ([Result.ok 1, Result.ok 2] : List (Result Nat Nat)))).map
          (Result.ok : Nat → Result Nat Nat) = [Result.ok 1, Result.ok 2]) :=
  ⟨rfl, c6_all_ok (Prog.pure 0) [Result.ok 1, Result.ok 2] rfl⟩

/-- Instrumented version of `FirstErrIter`'s `next`: identical result (see
`nextT_fst`), and additionally the list of answers the *source's* `next`
gave during this call — one entry per source invocation, so the trace
length counts the calls made to the source. -/
def nextT {σ T E : Type} (stp : σ → Option (Result T E) × σ) :
    State σ T E → (Option T × State σ T E) × List (Option (Result T E))
  | State.Active s =>
    match stp s with
    | (some (Result.ok t), s') => ((some t, State.Active s'), [some (Result.ok t)])
    | (some (Result.err e), _) => ((none, State.FoundFirstErr e), [some (Result.err e)])
    | (none, _) => ((none, State.Exhausted), [none])
  | State.FoundFirstErr e => ((none, State.FoundFirstErr e), [])
  | State.Exhausted => ((none, State.Exhausted), [])

/-- Instrumented `runProg`: same result, plus the concatenated source
traces of all adapter calls the closure makes, in call order. -/
def runProgT {α T O ev : Type} (stpT : α → (Option T × α) × List ev) :
    Prog T O → α → (O × α) × List ev
  | Prog.pure o, a => ((o, a), [])
  | Prog.step k, a =>
    ((runProgT stpT (k (stpT a).1.1) (stpT a).1.2).1,
      (stpT a).2 ++ (runProgT stpT (k (stpT a).1.1) (stpT a).1.2).2)

/-- Instrumented reconciliation drain: same reported error, plus the
answers the source gave while draining. -/
def drainT {T E : Type} : List (Result T E) → Option E × List (Option (Result T E))
  | [] => (none, [none])
  | Result.ok t :: rest => ((drainT rest).1, some (Result.ok t) :: (drainT rest).2)
  | Result.err e :: _ => (some e, [some (Result.err e)])

/-- Instrumented `first_err_or_else`: same result (see
`firstErrOrElseT_fst`), plus the full source trace of the whole call. -/
def firstErrOrElseT {T E O : Type} (f : Prog T O) (src : List (Result T E)) :
    Result O E × List (Option (Result T E)) :=
  match (runProgT (nextT listStep) f (State.Active src)).1.2 with
  | State.Active inner =>
    ((match (drainT inner).1 with
      | some e => Result.err e
      | none => Result.ok (runProgT (nextT listStep) f (State.Active src)).1.1),
      (runProgT (nextT listStep) f (State.Active src)).2 ++ (drainT inner).2)
  | State.Exhausted =>
    (Result.ok (runProgT (nextT listStep) f (State.Active src)).1.1,
      (runProgT (nextT listStep) f (State.Active src)).2)
  | State.FoundFirstErr e =>
    (Result.err e, (runProgT (nextT listStep) f (State.Active src)).2)

/-- Specification-side reading of the laziness/side-effect contract: the
source is asked exactly once per item in source order, up to and including
the first Err, or through full exhaustion (where the final answer is the
exhaustion signal). -/
def specTrace {T E : Type} : List (Result T E) → List (Option (Result T E))
  | [] => [none]
  | Result.ok t :: rest => some (Result.ok t) :: specTrace rest
  | Result.err e :: _ => [some (Result.err e)]

lemma nextT_fst {σ T E : Type} (stp : σ → Option (Result T E) × σ) :
    ∀ st : State σ T E, (nextT stp st).1 = FirstErrIter.next stp st := by
  intro st
  cases st with
  | Active s =>
    rcases h : stp s with ⟨it, s'⟩
    rcases it with _ | it
    · simp [nextT, FirstErrIter.next, h]
    · cases it <;> simp [nextT, FirstErrIter.next, h]
  | FoundFirstErr e => rfl
  | Exhausted => rfl

lemma runProgT_fst {α T O ev : Type} (stpT : α → (Option T × α) × List ev) :
    ∀ (f : Prog T O) (a : α),
      (runProgT stpT f a).1 = runProg (fun x => (stpT x).1) f a := by
  intro f
  induction f with
  | pure o => intro a; rfl
  | step k ih => intro a; simp [runProgT, runProg, ih]

lemma runT_eq_run {T E O : Type} (f : Prog T O) (a : State (List (Result T E)) T E) :
    (runProgT (nextT listStep) f a).1 = runProg (FirstErrIter.next listStep) f a := by
  rw [runProgT_fst]
  have : (fun x => (nextT (listStep (β := Result T E)) x).1) = FirstErrIter.next listStep := by
    funext x; exact nextT_fst listStep x
  rw [this]

lemma drainT_fst {T E : Type} : ∀ l : List (Result T E), (drainT l).1 = drainErr l := by
  intro l
  induction l with
  | nil => rfl
  | cons x rest ih => cases x <;> simp [drainT, drainErr, ih]

lemma drainT_snd {T E : Type} : ∀ l : List (Result T E), (drainT l).2 = specTrace l := by
  intro l
  induction l with
  | nil => rfl
  | cons x rest ih => cases x <;> simp [drainT, specTrace, ih]

lemma firstErrOrElseT_fst {T E O : Type} (f : Prog T O) (src : List (Result T E)) :
    (firstErrOrElseT f src).1 = firstErrOrElse f src := by
  rcases hst : (runProg (FirstErrIter.next listStep) f (State.Active src)).2 with s | e | _ <;>
    simp [firstErrOrElseT, firstErrOrElse, runT_eq_run, hst, drainT_fst]

lemma runProgT_inert {α T O ev : Type} (stpT : α → (Option T × α) × List ev) (a : α)
    (h : stpT a = ((none, a), [])) :
    ∀ f : Prog T O, (runProgT stpT f a).1.2 = a ∧ (runProgT stpT f a).2 = [] := by
  intro f
  induction f with
  | pure o => exact ⟨rfl, rfl⟩
  | step k ih =>
    refine ⟨?_, ?_⟩ <;> simp [runProgT, h, (ih none).1, (ih none).2]

lemma traceMain {T E O : Type} :
    ∀ (f : Prog T O) (src : List (Result T E)),
      (firstErrOrElseT f src).2 = specTrace src := by
  intro f
  induction f with
  | pure o =>
    intro src
    simp [firstErrOrElseT, runProgT, drainT_snd]
  | step k ih =>
    intro src
    cases src with
    | nil =>
      have hin := runProgT_inert (nextT (listStep (β := Result T E))) State.Exhausted rfl
        (k none)
      simp [firstErrOrElseT, runProgT, nextT, listStep, hin.1, hin.2, specTrace]
    | cons x rest =>
      cases x with
      | ok t =>
        have hstep : ∀ st : State (List (Result T E)) T E,
            (runProgT (nextT listStep) (Prog.step k) (State.Active (Result.ok t :: rest))).1 =
              (runProgT (nextT listStep) (k (some t)) (State.Active rest)).1 := by
          intro _; simp [runProgT, nextT, listStep]
        have htr :
            (runProgT (nextT listStep) (Prog.step k) (State.Active (Result.ok t :: rest))).2 =
              some (Result.ok t) ::
                (runProgT (nextT listStep) (k (some t)) (State.Active rest)).2 := by
          simp [runProgT, nextT, listStep]
        have := ih (some t) rest
        rcases hst : (runProgT (nextT listStep) (k (some t)) (State.Active rest)).1.2
          with s | e | _ <;>
          simp only [firstErrOrElseT, hstep State.Exhausted, htr, hst, specTrace,
            List.cons_append, List.append_assoc] at this ⊢ <;>
          simp [this]
      | err e =>
        have hin := runProgT_inert (nextT (listStep (β := Result T E)))
          (State.FoundFirstErr e) rfl (k none)
        simp [firstErrOrElseT, runProgT, nextT, listStep, hin.1, hin.2, specTrace]

lemma specTrace_length {T E : Type} :
    ∀ src : List (Result T E), (specTrace src).length ≤ src.length + 1 := by
  intro src
  induction src with
  | nil => simp [specTrace]
  | cons x rest ih =>
    cases x with
    | ok t => simpa [specTrace] using Nat.succ_le_succ ih
    | err e => simp [specTrace]

/-- C4: the adapter is lazy.  Across a whole `first_err_or_else` call the
source's `next` is invoked exactly once per item, in source order, up to
and including the first Err (or through full exhaustion, where the last
invocation returns the exhaustion signal); per adapter call the source is
pulled exactly once while `Active` and never once the state is inert.
The instrumented driver agrees with the plain one on the result. -/
theorem c4_lazy_trace {T E O : Type} (f : Prog T O) (src : List (Result T E)) :
    (firstErrOrElseT f src).2 = specTrace src
    ∧ (firstErrOrElseT f src).1 = firstErrOrElse f src
    ∧ (∀ (σ : Type) (stp : σ → Option (Result T E) × σ) (s : σ),
        ((nextT stp (State.Active s)).2).length = 1)
    ∧ (∀ (σ : Type) (stp : σ → Option (Result T E) × σ) (e : E),
        nextT stp (State.FoundFirstErr e : State σ T E) = ((none, State.FoundFirstErr e), []))
    ∧ (∀ (σ : Type) (stp : σ → Option (Result T E) × σ),
        nextT stp (State.Exhausted : State σ T E) = ((none, State.Exhausted), [])) := by
  refine ⟨traceMain f src, firstErrOrElseT_fst f src, ?_, fun σ stp e => rfl, fun σ stp => rfl⟩
  intro σ stp s
  rcases h : stp s with ⟨it, s'⟩
  rcases it with _ | it
  · simp [nextT, h]
  · cases it <;> simp [nextT, h]

/-- C10: the whole driver is total on finite inputs; in particular the
reconciliation drain asks the source for at most one item per remaining
element (plus the final exhaustion signal) and stops at the first Err. -/
theorem c10_total {T E O : Type} (f : Prog T O) (src rest : List (Result T E)) :
    (firstErrOrElseT f src).2.length ≤ src.length + 1
    ∧ drainErr rest = firstErr rest
    ∧ (drainT rest).2.length ≤ rest.length + 1 := by
  refine ⟨?_, drainErr_eq_firstErr rest, ?_⟩
  · rw [traceMain f src]; exact specTrace_length src
  · rw [drainT_snd rest]; exact specTrace_length rest

/-- Internal state of `FirstNoneIter` (src/lib.rs lines 689-698): variants
`Active(I)`, `FoundFirstNone` (no value retained), `Exhausted`. -/
inductive NState (σ T : Type) where
  | Active (inner : σ)
  | FoundFirstNone
  | Exhausted

/-- `<FirstNoneIter as Iterator>::next` (src/lib.rs lines 668-684). -/
def FirstNoneIter.next {σ T : Type} (stp : σ → Option (Option T) × σ) :
    NState σ T → Option T × NState σ T
  | NState.Active s =>
    match stp s with
    | (some (some t), s') => (some t, NState.Active s')
    | (some none, _) => (none, NState.FoundFirstNone)
    | (none, _) => (none, NState.Exhausted)
  | NState.FoundFirstNone => (none, NState.FoundFirstNone)
  | NState.Exhausted => (none, NState.Exhausted)

/-- The reconciliation drain of `first_none_or_else` (src/lib.rs lines
649-653): `for opt in inner { let _ = opt?; }`; true iff a `None` is hit. -/
def drainNone {T : Type} : List (Option T) → Bool
  | [] => false
  | some _ :: rest => drainNone rest
  | none :: _ => true

/-- `FirstNoneIter::first_none_or_else` (src/lib.rs lines 636-658). -/
def firstNoneOrElse {T O : Type} (f : Prog T O) (src : List (Option T)) : Option O :=
  match (runProg (FirstNoneIter.next listStep) f (NState.Active src)).2 with
  | NState.Active inner =>
    match drainNone inner with
    | true => none
    | false => some (runProg (FirstNoneIter.next listStep) f (NState.Active src)).1
  | NState.Exhausted => some (runProg (FirstNoneIter.next listStep) f (NState.Active src)).1
  | NState.FoundFirstNone => none

/-- `FirstErr::first_none_or` (src/lib.rs lines 522-528). -/
def firstNoneOr {T O : Type} (value : O) (src : List (Option T)) : Option O :=
  firstNoneOrElse (Prog.pure value) src

/-- `FirstErr::first_none_or_try` (src/lib.rs lines 490-497):
`self.first_none_or_else(f).and_then(|opt| opt)`. -/
def firstNoneOrTry {T O : Type} (f : Prog T (Option O)) (src : List (Option T)) : Option O :=
  (firstNoneOrElse f src).bind (fun opt => opt)

/-- The correspondence Some ↔ Ok, None ↔ Err on items. -/
def liftItem {T : Type} : Option T → Result T Unit
  | some t => Result.ok t
  | none => Result.err ()

/-- The correspondence Ok ↔ Some, Err ↔ None on outcomes. -/
def toOpt {O : Type} : Result O Unit → Option O
  | Result.ok o => some o
  | Result.err _ => none

/-- The correspondence on adapter states. -/
def stMap {T : Type} : NState (List (Option T)) T → State (List (Result T Unit)) T Unit
  | NState.Active s => State.Active (s.map liftItem)
  | NState.FoundFirstNone => State.FoundFirstErr ()
  | NState.Exhausted => State.Exhausted

/-- Post-compose a closure's interaction tree with a function on outputs. -/
def Prog.map {T O O' : Type} (g : O → O') : Prog T O → Prog T O'
  | Prog.pure o => Prog.pure (g o)
  | Prog.step k => Prog.step (fun t => (k t).map g)

lemma next_stMap {T : Type} : ∀ nst : NState (List (Option T)) T,
    FirstErrIter.next listStep (stMap nst) =
      ((FirstNoneIter.next listStep nst).1, stMap (FirstNoneIter.next listStep nst).2) := by
  intro nst
  cases nst with
  | Active s =>
    cases s with
    | nil => rfl
    | cons x rest =>
      cases x with
      | some t => simp [stMap, FirstErrIter.next, FirstNoneIter.next, listStep, liftItem]
      | none => simp [stMap, FirstErrIter.next, FirstNoneIter.next, listStep, liftItem]
  | FoundFirstNone => rfl
  | Exhausted => rfl

lemma run_stMap {T O : Type} (f : Prog T O) : ∀ nst : NState (List (Option T)) T,
    runProg (FirstErrIter.next listStep) f (stMap nst) =
      ((runProg (FirstNoneIter.next listStep) f nst).1,
        stMap (runProg (FirstNoneIter.next listStep) f nst).2) := by
  induction f with
  | pure o => intro nst; rfl
  | step k ih =>
    intro nst
    show runProg (FirstErrIter.next listStep) (k _) _ = _
    rw [next_stMap nst]
    exact ih _ _

lemma drain_map {T : Type} : ∀ l : List (Option T),
    drainErr (l.map liftItem) = (if drainNone l then some () else none) := by
  intro l
  induction l with
  | nil => rfl
  | cons x rest ih => cases x <;> simp [drainErr, drainNone, liftItem, ih]

lemma noneElse_corr {T O : Type} (f : Prog T O) (src : List (Option T)) :
    firstNoneOrElse f src = toOpt (firstErrOrElse f (src.map liftItem)) := by
  have hrun := run_stMap f (NState.Active src)
  simp only [firstNoneOrElse, firstErrOrElse,
    show State.Active (src.map liftItem) = stMap (NState.Active src) from rfl, hrun]
  rcases h2 : (runProg (FirstNoneIter.next listStep) f (NState.Active src)).2 with s | _ | _
  · cases hb : drainNone s <;> simp [stMap, drain_map, hb, toOpt]
  · simp [stMap, toOpt]
  · simp [stMap, toOpt]

lemma runProg_map {α T O O' : Type} (stp : α → Option T × α) (g : O → O') :
    ∀ (f : Prog T O) (a : α),
      runProg stp (f.map g) a = (g (runProg stp f a).1, (runProg stp f a).2) := by
  intro f
  induction f with
  | pure o => intro a; rfl
  | step k ih => intro a; simp [Prog.map, runProg, ih]

lemma toOpt_liftItem {O : Type} : ∀ o : Option O, toOpt (liftItem o) = o := by
  intro o; cases o <;> rfl

/-- C9: the Option-based variant mirrors the Result-based variant exactly
under Some ↔ Ok and None ↔ Err, for all three methods. -/
theorem c9_option_mirror {T O : Type} (f : Prog T O) (fr : Prog T (Option O)) (v : O)
    (src : List (Option T)) :
    firstNoneOrElse f src = toOpt (firstErrOrElse f (src.map liftItem))
    ∧ firstNoneOr v src = toOpt (firstErrOr v (src.map liftItem))
    ∧ firstNoneOrTry fr src =
      toOpt (firstErrOrTry (fr.map liftItem) (src.map liftItem)) := by
  refine ⟨noneElse_corr f src, noneElse_corr (Prog.pure v) src, ?_⟩
  rw [firstNoneOrTry, firstErrOrTry, noneElse_corr fr src, orElse_eq, orElse_eq,
    runProg_map]
  cases firstErr (src.map liftItem) with
  | none =>
    cases hx : (runProg (FirstErrIter.next listStep) fr (State.Active (src.map liftItem))).1 with
    | none => simp [hx, toOpt, liftItem, Result.and_then]
    | some o => simp [hx, toOpt, liftItem, Result.and_then]
  | some e => simp [toOpt, Result.and_then]

/-- State tag of a `FirstErrIter` whose wrapped source `I` is a mutable
reference `&mut J` to an outer iterator (the nested-invocation situation
of the crate docs, src/lib.rs lines 131-153): the `Active` variant holds
the reference, whose target is threaded separately. -/
inductive StateR (E : Type) where
  | Active
  | FoundFirstErr (e : E)
  | Exhausted

/-- `<FirstErrIter as Iterator>::next` instantiated at `I = &mut J`: same
match structure as `FirstErrIter.next`, with the reference's target state
(of type `σ`) threaded explicitly so that it survives the adapter's
transitions out of `Active` (dropping a `&mut` leaves the target alive). -/
def nextRef {σ T E : Type} (stepO : σ → Option (Result T E) × σ) :
    StateR E × σ → Option T × (StateR E × σ)
  | (StateR.Active, s) =>
    match stepO s with
    | (some (Result.ok t), s') => (some t, (StateR.Active, s'))
    | (some (Result.err e), s') => (none, (StateR.FoundFirstErr e, s'))
    | (none, s') => (none, (StateR.Exhausted, s'))
  | (StateR.FoundFirstErr e, s) => (none, (StateR.FoundFirstErr e, s))
  | (StateR.Exhausted, s) => (none, (StateR.Exhausted, s))

/-- The inner driver's reconciliation drain when its source is the `&mut`
outer adapter: `for res in inner` pulls `FirstErrIter.next listStep`
(which on `State.Active l` consumes the head of `l`, so the recursion is
on `l`) until the outer adapter yields no item, or stops at the first
`Err` item it yields; returns the propagated error, if any, and the outer
adapter's state afterwards. -/
def drainRefL {T E : Type} :
    List (Result (Result T E) E) →
      Option E × State (List (Result (Result T E) E)) (Result T E) E
  | [] => (none, State.Exhausted)
  | Result.ok (Result.ok _) :: rest => drainRefL rest
  | Result.ok (Result.err e) :: rest => (some e, State.Active rest)
  | Result.err e :: _ => (none, State.FoundFirstErr e)

/-- The same drain, entered from an arbitrary outer-adapter state; a
non-`Active` outer adapter yields no item at once, ending the loop. -/
def drainRef {T E : Type} :
    State (List (Result (Result T E) E)) (Result T E) E →
      Option E × State (List (Result (Result T E) E)) (Result T E) E
  | State.Active l => drainRefL l
  | st => (none, st)

/-- `first_err_or_else` instantiated with source `&mut` outer adapter
(the closure argument of the outer call in nested invocation):
structurally the same algorithm as `firstErrOrElse`, with the outer
adapter's state threaded through and returned. -/
def firstErrOrElseRef {T E O : Type} (g : Prog T O)
    (s0 : State (List (Result (Result T E) E)) (Result T E) E) :
    Result O E × State (List (Result (Result T E) E)) (Result T E) E :=
  match (runProg (nextRef (FirstErrIter.next listStep)) g (StateR.Active, s0)).2.1 with
  | StateR.Active =>
    ((match (drainRef (runProg (nextRef (FirstErrIter.next listStep)) g
          (StateR.Active, s0)).2.2).1 with
      | some e => Result.err e
      | none => Result.ok (runProg (nextRef (FirstErrIter.next listStep)) g
          (StateR.Active, s0)).1),
      (drainRef (runProg (nextRef (FirstErrIter.next listStep)) g (StateR.Active, s0)).2.2).2)
  | StateR.FoundFirstErr e =>
    (Result.err e, (runProg (nextRef (FirstErrIter.next listStep)) g (StateR.Active, s0)).2.2)
  | StateR.Exhausted =>
    (Result.ok (runProg (nextRef (FirstErrIter.next listStep)) g (StateR.Active, s0)).1,
      (runProg (nextRef (FirstErrIter.next listStep)) g (StateR.Active, s0)).2.2)

/-- The nested invocation
`src.first_err_or_else(|iter1| iter1.first_err_or_else(g))` over a
two-layer list source: the outer driver's closure is the inner driver run
on the `&mut` outer adapter. -/
def nestedOrElse {T E O : Type} (g : Prog T O) (src : List (Result (Result T E) E)) :
    Result (Result O E) E :=
  match (firstErrOrElseRef g (State.Active src)).2 with
  | State.Active rest =>
    match drainErr rest with
    | some e => Result.err e
    | none => Result.ok (firstErrOrElseRef g (State.Active src)).1
  | State.Exhausted => Result.ok (firstErrOrElseRef g (State.Active src)).1
  | State.FoundFirstErr e => Result.err e

/-- The innermost summing closure `|iter2| iter2.sum::<u8>()` as an
interaction tree, with enough fuel to outlast any fixed source. -/
def sumProg : Nat → Nat → Prog Nat Nat
  | 0, acc => Prog.pure acc
  | fuel + 1, acc =>
    Prog.step fun
      | some t => sumProg fuel (acc + t)
      | none => Prog.pure acc

/-- The payloads of the outer-`Ok` items of a two-layer source (for a
source without outer `Err`, the item sequence the outer adapter yields). -/
def okVals {T E : Type} : List (Result (Result T E) E) → List (Result T E)
  | [] => []
  | Result.ok p :: rest => p :: okVals rest
  | Result.err _ :: rest => okVals rest

lemma else_cons_ok {T E O : Type} (k : Option T → Prog T O) (t : T) (m : List (Result T E)) :
    firstErrOrElse (Prog.step k) (Result.ok t :: m) = firstErrOrElse (k (some t)) m := by
  simp [firstErrOrElse, runProg, FirstErrIter.next, listStep]

lemma ref_pure {T E O : Type} (o : O) (l : List (Result (Result T E) E)) :
    firstErrOrElseRef (Prog.pure o) (State.Active l) =
      (match (drainRefL l).1 with
        | some e => Result.err e
        | none => Result.ok o,
        (drainRefL l).2) := by
  simp [firstErrOrElseRef, runProg, drainRef]

lemma nested_pure {T E O : Type} (o : O) :
    ∀ l : List (Result (Result T E) E),
      Result.and_then (nestedOrElse (Prog.pure o) l) (fun r => r) =
        match firstErr l with
        | some e => Result.err e
        | none =>
          match drainErr (okVals l) with
          | some e => Result.err e
          | none => Result.ok o := by
  intro l
  induction l with
  | nil => rfl
  | cons x rest ih =>
    match x with
    | Result.ok (Result.ok t) =>
      have heq : nestedOrElse (Prog.pure o) (Result.ok (Result.ok t) :: rest) =
          nestedOrElse (Prog.pure o) rest := by
        simp [nestedOrElse, ref_pure, drainRefL]
      rw [heq, ih]
      rfl
    | Result.ok (Result.err e2) =>
      have heq : nestedOrElse (Prog.pure o) (Result.ok (Result.err e2) :: rest) =
          match drainErr rest with
          | some e => Result.err e
          | none => Result.ok (Result.err e2) := by
        simp [nestedOrElse, ref_pure, drainRefL]
      rw [heq]
      rw [show firstErr (Result.ok (Result.err e2) :: rest) = firstErr rest from rfl,
        show okVals (Result.ok (Result.err e2) :: rest) = Result.err e2 :: okVals rest from rfl,
        show drainErr (Result.err e2 :: okVals rest) = some e2 from rfl,
        drainErr_eq_firstErr]
      cases firstErr rest <;> simp [Result.and_then]
    | Result.err e1 =>
      simp [nestedOrElse, ref_pure, drainRefL, firstErr, Result.and_then]

lemma nested_eq {T E O : Type} :
    ∀ (g : Prog T O) (src : List (Result (Result T E) E)),
      Result.and_then (nestedOrElse g src) (fun r => r) =
        match firstErr src with
        | some e => Result.err e
        | none => firstErrOrElse g (okVals src) := by
  intro g
  induction g with
  | pure o =>
    intro src
    rw [nested_pure o src]
    have h : firstErrOrElse (Prog.pure o) (okVals src) =
        match drainErr (okVals src) with
        | some e => Result.err e
        | none => Result.ok o := by
      simp [firstErrOrElse, runProg]
    rw [h]
  | step k ih =>
    intro src
    cases src with
    | nil =>
      have habs : nextRef (FirstErrIter.next listStep)
          ((StateR.Exhausted, State.Exhausted) :
            StateR E × State (List (Result (Result T E) E)) (Result T E) E) =
          (none, (StateR.Exhausted, State.Exhausted)) := rfl
      have habs2 : FirstErrIter.next (listStep (β := Result T E)) State.Exhausted =
          (none, State.Exhausted) := rfl
      have h2 := runProg_absorb (O := O) _ _ habs (k none)
      have hout := runProg_dead (O := O) _ _ _ _ habs habs2 (k none)
      have hL : Result.and_then (nestedOrElse (Prog.step k)
            ([] : List (Result (Result T E) E))) (fun r => r) =
          Result.ok (runProg (nextRef (FirstErrIter.next listStep)) (k none)
            ((StateR.Exhausted, State.Exhausted) :
              StateR E × State (List (Result (Result T E) E)) (Result T E) E)).1 := by
        simp only [nestedOrElse, firstErrOrElseRef, runProg, nextRef, FirstErrIter.next,
          listStep, h2]
        rfl
      rw [hL]
      rw [show firstErr ([] : List (Result (Result T E) E)) = none from rfl,
        show okVals ([] : List (Result (Result T E) E)) = [] from rfl,
        orElse_eq]
      rw [show firstErr ([] : List (Result T E)) = none from rfl]
      simp only [runProg, FirstErrIter.next, listStep]
      rw [hout]
    | cons x rest =>
      match x with
      | Result.ok (Result.ok t) =>
        have heq : nestedOrElse (Prog.step k) (Result.ok (Result.ok t) :: rest) =
            nestedOrElse (k (some t)) rest := by
          simp [nestedOrElse, firstErrOrElseRef, runProg, nextRef, FirstErrIter.next, listStep]
        rw [heq, ih (some t) rest]
        rw [show firstErr (Result.ok (Result.ok t) :: rest) = firstErr rest from rfl,
          show okVals (Result.ok (Result.ok t) :: rest) = Result.ok t :: okVals rest from rfl,
          else_cons_ok]
      | Result.ok (Result.err e2) =>
        have habs : nextRef (FirstErrIter.next listStep)
            ((StateR.FoundFirstErr e2, State.Active rest) :
              StateR E × State (List (Result (Result T E) E)) (Result T E) E) =
            (none, (StateR.FoundFirstErr e2, State.Active rest)) := rfl
        have h2 := runProg_absorb (O := O) _ _ habs (k none)
        have hL : Result.and_then (nestedOrElse (Prog.step k)
              (Result.ok (Result.err e2) :: rest)) (fun r => r) =
            match drainErr rest with
            | some e => Result.err e
            | none => Result.err e2 := by
          simp only [nestedOrElse, firstErrOrElseRef, runProg, nextRef, FirstErrIter.next,
            listStep, h2]
          cases drainErr rest <;> rfl
        rw [hL, drainErr_eq_firstErr]
        rw [show firstErr (Result.ok (Result.err e2) :: rest) = firstErr rest from rfl,
          show okVals (Result.ok (Result.err e2) :: rest) = Result.err e2 :: okVals rest
            from rfl]
        cases firstErr rest with
        | some e => rfl
        | none =>
          rw [orElse_eq]
          rw [show firstErr (Result.err e2 :: okVals rest) = some e2 from rfl]
      | Result.err e1 =>
        have habs : nextRef (FirstErrIter.next listStep)
            ((StateR.Exhausted, State.FoundFirstErr e1) :
              StateR E × State (List (Result (Result T E) E)) (Result T E) E) =
            (none, (StateR.Exhausted, State.FoundFirstErr e1)) := rfl
        have h2 := runProg_absorb (O := O) _ _ habs (k none)
        have hL : Result.and_then (nestedOrElse (Prog.step k)
              (Result.err e1 :: rest)) (fun r => r) = Result.err e1 := by
          simp only [nestedOrElse, firstErrOrElseRef, runProg, nextRef, FirstErrIter.next,
            listStep, h2]
          rfl
        rw [hL]
        rfl

/-- C8: nested invocation over a two-layer source, flattened with
`and_then`, reports the first outer `Err` if one exists (the outer failure
taking precedence over any inner failure seen earlier), and otherwise
behaves as the inner call over the outer-`Ok` payloads; in particular on
`[Ok(Ok 0), Ok(Err 1), Err 2, Ok(Ok 3)]` with a summing inner closure it
yields the outer failure `2`. -/
theorem c8_nested_layering :
    (∀ (T E O : Type) (g : Prog T O) (src : List (Result (Result T E) E)),
      Result.and_then (nestedOrElse g src) (fun r => r) =
        match firstErr src with
        | some e => Result.err e
        | none => firstErrOrElse g (okVals src))
    ∧ Result.and_then
        (nestedOrElse (sumProg 10 0)
          [Result.ok (Result.ok 0), Result.ok (Result.err 1), Result.err 2,
            Result.ok (Result.ok 3)])
        (fun r => r) = Result.err 2 :=
  ⟨fun T E O g src => nested_eq g src, by decide⟩
